import Mathlib

/-!
Verification development for `paasta_tools/generate_deployments_for_service.py`
and the rollback CLI surface of the same repository.

Shallow embedding conventions:
* Python dicts are modelled as association lists (`List (String × _)`) with
  unique keys; iteration order is list order, and `alookup` is dict indexing
  (`none` models a `KeyError`).
* Python strings are Lean `String`s; the regexes of the source are modelled as
  deterministic string functions over `List Char`, faithful to the leftmost /
  greedy / lazy semantics of the concrete patterns for inputs without newline
  characters and for branch names without regex metacharacters (git ref names
  cannot contain newlines, so nothing is lost on real inputs).
* Fallible code returns `Option`: `none` models a raised exception (`KeyError`,
  `AttributeError` on a failed regex search).
-/

namespace Paasta

/-- Strip `p` from the front of `s`: `some` of the remainder when `p` is a
prefix of `s`, otherwise `none`.  Models the literal part
`refs/tags/paasta-<branch>-` of the tag regex of `get_desired_state`. -/
def stripLeading : List Char → List Char → Option (List Char)
  | [], s => some s
  | _ :: _, [] => none
  | p :: ps, c :: cs => if p = c then stripLeading ps cs else none

/-- Split a character list at its first `'-'`: `some (before, after)` when a
hyphen occurs, `none` otherwise.  The greedy `[^-]+` group of the tag regex
followed by a literal `-` consumes exactly the text before the first hyphen. -/
def splitAtFirstHyphen : List Char → Option (List Char × List Char)
  | [] => none
  | c :: rest =>
    if c = '-' then some ([], rest)
    else (splitAtFirstHyphen rest).map (fun p => (c :: p.1, p.2))

/-- The decode side of the tag grammar, from the regex in `get_desired_state`
(`generate_deployments_for_service.py` line 177):
`^refs/tags/paasta-<branch>-(?P<force_bounce>[^-]+)-(?P<state>.*)$`.
The branch name is interpolated into the pattern as literal text (the model
assumes it contains no regex metacharacters, which real control branches
`cluster.instance` never do).  On a match the result is
`some (state, force_bounce)`, mirroring the `(gd['state'], gd['force_bounce'])`
pair appended by the caller; `none` models a failed `re.match`. -/
def decode_state_tag (branch ref_name : String) : Option (String × String) :=
  match stripLeading ("refs/tags/paasta-" ++ branch ++ "-").data ref_name.data with
  | none => none
  | some tail =>
    match splitAtFirstHyphen tail with
    | none => none
    | some (fb, st) => if fb = [] then none else some (⟨st⟩, ⟨fb⟩)

/-- The encode side of the tag grammar: the ref name
`refs/tags/paasta-<branch>-<force_bounce>-<state>` whose decode the round-trip
claim is about (spec §4.2 and §6, matching the regex above). -/
def encode_state_tag (branch force_bounce state : String) : String :=
  "refs/tags/paasta-" ++ branch ++ "-" ++ force_bounce ++ "-" ++ state

/-- Association-list lookup, modelling Python dict indexing: first entry whose
key equals the query (dict keys are unique, so at most one entry matches). -/
def alookup {α : Type} (k : String) : List (String × α) → Option α
  | [] => none
  | (k1, v) :: rest => if k1 = k then some v else alookup k rest

/-- The `states` list built by the loop of `get_desired_state` (lines 179-187):
for each ref of the snapshot pointing at `head_sha`, decode it against the tag
grammar and collect the `(state, force_bounce)` pairs in iteration order.
The `service` argument is kept because the Python function receives it (it is
unused by the body, exactly as in the source). -/
def collect_states (service branch : String) (remote_refs : List (String × String))
    (head_sha : String) : List (String × String) :=
  match remote_refs with
  | [] => []
  | (ref_name, sha) :: rest =>
    let tailStates := collect_states service branch rest head_sha
    if sha = head_sha then
      match decode_state_tag branch ref_name with
      | some p => p :: tailStates
      | none => tailStates
    else tailStates

/-- Lexicographic string comparison, character by character by code point:
the comparison Python applies to the `force_bounce` sort keys (byte-wise on
`str`, which agrees with code-point order under UTF-8).  Proved equivalent to
the `≤` of the linear order on `String` below (`charsLe_iff_le`). -/
def charsLe : List Char → List Char → Bool
  | [], _ => true
  | _ :: _, [] => false
  | a :: as, b :: bs => if a < b then true else if b < a then false else charsLe as bs

/-- The sort key relation of `sorted(states, key=lambda x: x[1])`: compare the
`force_bounce` components lexicographically. -/
def stateKeyLe (a b : String × String) : Prop := charsLe a.2.data b.2.data = true

instance : DecidableRel stateKeyLe :=
  fun a b => inferInstanceAs (Decidable (charsLe a.2.data b.2.data = true))

/-- `get_desired_state` (lines 172-195): look up the head commit of
`refs/heads/<deploy_group>` (`none` models the `KeyError` when absent), collect
the decoded `(state, force_bounce)` pairs of the refs pointing at it, and if
any were collected return the last element of the list sorted by the
`force_bounce` key, else `('start', None)`.  `getLast?` of the stable sort is
`sorted_states[-1]`; its `none` branch coincides with the empty-`states`
default of the source. -/
def get_desired_state (service branch : String) (remote_refs : List (String × String))
    (deploy_group : String) : Option (String × Option String) :=
  match alookup ("refs/heads/" ++ deploy_group) remote_refs with
  | none => none
  | some head_sha =>
    match (List.insertionSort stateKeyLe
        (collect_states service branch remote_refs head_sha)).getLast? with
    | some p => some (p.1, some p.2)
    | none => some ("start", none)

/-- `build_docker_image_name` (lines 157-158): `'services-%s:paasta-%s'`. -/
def build_docker_image_name (service sha : String) : String :=
  "services-" ++ service ++ ":paasta-" ++ sha

/-- `headMatches pat s`: `pat` matches the text at the start of `s` (literal
prefix test, used for the fixed literals of the image-name regex). -/
def headMatches : List Char → List Char → Bool
  | [], _ => true
  | _ :: _, [] => false
  | p :: ps, c :: cs => p == c && headMatches ps cs

/-- The lazy group `(.*?)` of the image-name regex followed by the literal
`:paasta-`: the shortest prefix of the input after which `:paasta-` occurs,
`none` when `:paasta-` does not occur at all. -/
def takeUntilPaasta : List Char → Option (List Char)
  | [] => none
  | c :: rest =>
    if headMatches ":paasta-".data (c :: rest) then some []
    else (takeUntilPaasta rest).map (fun l => c :: l)

/-- The search of `re.search('.*/services-(.*?):paasta-.*?', image_name)`
(line 168).  The leading greedy `.*` makes the engine commit to the *last*
occurrence of `/services-` after which `:paasta-` still occurs; the group is
then the lazy shortest text before the next `:paasta-`.  The recursion tries
later start positions first, which is exactly that backtracking order. -/
def searchLastService : List Char → Option (List Char)
  | [] => none
  | c :: rest =>
    match searchLastService rest with
    | some g => some g
    | none =>
      if headMatches "/services-".data (c :: rest) then
        takeUntilPaasta ((c :: rest).drop 10)
      else none

/-- `get_service_from_docker_image` (lines 161-169): run the regex search and
take group 1.  `none` models the `AttributeError` the source raises when the
search finds no match and `matches.group(1)` is evaluated on `None`. -/
def get_service_from_docker_image (image_name : String) : Option String :=
  (searchLastService image_name.data).map (fun l => ⟨l⟩)

/-- One `DeployGroupMapping` of the manifest: the documented field set of a
`deployments.json` entry (docstring of `get_deploy_group_mappings` and spec
§3). -/
structure DeployGroupMapping where
  docker_image : String
  desired_state : String
  force_bounce : Option String
deriving DecidableEq

/-- A top-level value of a parsed `deployments.json` document: the `v1`
envelope holds a mappings object, a legacy document holds plain docker-image
strings, and `vother` stands for any other JSON value (skipped by the legacy
upgrade's `isinstance(image, str)` test). -/
inductive DeploymentsValue : Type where
  | vmappings : List (String × DeployGroupMapping) → DeploymentsValue
  | vstr : String → DeploymentsValue
  | vother : DeploymentsValue
deriving DecidableEq

/-- `get_deployments_dict_from_deploy_group_mappings` (lines 198-199): wrap
the mappings in the `v1` envelope. -/
def get_deployments_dict_from_deploy_group_mappings
    (deploy_group_mappings : List (String × DeployGroupMapping)) :
    List (String × DeploymentsValue) :=
  [("v1", DeploymentsValue.vmappings deploy_group_mappings)]

/-- The legacy-upgrade loop of `get_deploy_group_mappings_from_deployments_dict`
(lines 206-214): each top-level entry whose value is a plain string becomes
`{docker_image: <string>, desired_state: 'start', force_bounce: None}`;
non-string values are skipped. -/
def legacy_upgrade : List (String × DeploymentsValue) → List (String × DeployGroupMapping)
  | [] => []
  | (deploy_group, DeploymentsValue.vstr image) :: rest =>
    (deploy_group, ⟨image, "start", none⟩) :: legacy_upgrade rest
  | _ :: rest => legacy_upgrade rest

/-- `get_deploy_group_mappings_from_deployments_dict` (lines 202-214): return
`deployments_dict['v1']` when present (whatever value is stored there, as in
the source), else upgrade the legacy flat shape. -/
def get_deploy_group_mappings_from_deployments_dict
    (deployments_dict : List (String × DeploymentsValue)) : DeploymentsValue :=
  match alookup "v1" deployments_dict with
  | some v => v
  | none => DeploymentsValue.vmappings (legacy_upgrade deployments_dict)

/-- Outcome of `open` + `json.load` on the prior `deployments.json` in `main`
(lines 225-230): the file may be missing (`IOError`), hold text that is not
JSON (`ValueError`), or parse to a document. -/
inductive FileReadOutcome : Type where
  | missingFile : FileReadOutcome
  | invalidJson : FileReadOutcome
  | parsed : List (String × DeploymentsValue) → FileReadOutcome

/-- The `try/except (IOError, ValueError)` of `main` (lines 225-230): a missing
or unparsable file yields the empty mapping; a parsed document goes through
`get_deploy_group_mappings_from_deployments_dict`.  The function is total:
no outcome propagates an exception to the resolution pass. -/
def load_old_mappings : FileReadOutcome → DeploymentsValue
  | FileReadOutcome.missingFile => DeploymentsValue.vmappings []
  | FileReadOutcome.invalidJson => DeploymentsValue.vmappings []
  | FileReadOutcome.parsed d => get_deploy_group_mappings_from_deployments_dict d

/-- Dict insertion `mappings[key] = value` preserving insertion order: replace
the entry holding `k` in place, or append a new one.  In the loop of
`get_deploy_group_mappings` every iteration writes all three fields of the
`setdefault`-obtained entry, so the per-key effect is exactly replacement. -/
def setEntry (m : List (String × DeployGroupMapping)) (k : String)
    (v : DeployGroupMapping) : List (String × DeployGroupMapping) :=
  match m with
  | [] => [(k, v)]
  | (k1, v1) :: rest => if k1 = k then (k, v) :: rest else (k1, v1) :: setEntry rest k v

/-- The body of the per-pair loop of `get_deploy_group_mappings`
(lines 135-152): skip the pair when `refs/heads/<deploy_group>` is absent from
the snapshot, otherwise store docker image, desired state and force_bounce
under `service:deploy_group`.  The inner `none` branch of `get_desired_state`
is unreachable here because the head ref was just found. -/
def resolve_step (service : String) (remote_refs : List (String × String))
    (mappings : List (String × DeployGroupMapping)) (pair : String × String) :
    List (String × DeployGroupMapping) :=
  match alookup ("refs/heads/" ++ pair.2) remote_refs with
  | none => mappings
  | some commit_sha =>
    match get_desired_state service pair.1 remote_refs pair.2 with
    | none => mappings
    | some ds =>
      setEntry mappings (service ++ ":" ++ pair.2)
        ⟨build_docker_image_name service commit_sha, ds.1, ds.2⟩

/-- `get_deploy_group_mappings` (lines 104-154).  The I/O boundaries are
externalized: the branch → deploy_group dict derived from the service configs
and the remote-ref snapshot are parameters (in the source they come from
`get_instance_config_for_service` and `remote_git.list_remote_refs`), and
`soa_dir` and `old_mappings` are kept as opaque parameters exactly because the
body never reads them (`old_mappings` is mentioned only in the docstring). -/
def get_deploy_group_mappings {α β : Type} (soa_dir : α) (service : String)
    (old_mappings : β) (deploy_group_branch_mappings : List (String × String))
    (remote_refs : List (String × String)) : List (String × DeployGroupMapping) :=
  if deploy_group_branch_mappings.isEmpty then []
  else deploy_group_branch_mappings.foldl (resolve_step service remote_refs) []

/-- Modelled from the spec: `validate_given_instances` of
`paasta_tools/cli/cmds/rollback.py` is not under `src/` (only its tests are).
Spec §4.6: partition a caller-supplied instance list against the known
instances into `(valid, invalid)` sets; an empty input resolves to all known
instances; duplicates collapse.  Sets are modelled as deduplicated lists. -/
def validate_given_instances (service_instances given_instances : List String) :
    List String × List String :=
  if given_instances.isEmpty then (service_instances.dedup, [])
  else
    ((given_instances.filter (fun i => decide (i ∈ service_instances))).dedup,
     (given_instances.filter (fun i => decide (i ∉ service_instances))).dedup)

/-- Modelled from the spec: `paasta_rollback` of
`paasta_tools/cli/cmds/rollback.py` is not under `src/` (only its tests are).
Spec §6: exit `1` with no mutation when the cluster is unknown or any named
instance is invalid, otherwise issue one `mark_for_deployment` call per valid
instance and exit `0` only if all succeed.  `mark_ret` supplies each call's
return code; the result is `(exit code, instances mutated, in call order)`. -/
def paasta_rollback (cluster : String) (given_instances : List String)
    (known_clusters service_instances : List String) (mark_ret : String → Nat) :
    Nat × List String :=
  if cluster ∉ known_clusters then (1, [])
  else
    let vi := validate_given_instances service_instances given_instances
    if ¬ vi.2.isEmpty then (1, [])
    else
      ((if (vi.1.map mark_ret).all (fun r => r == 0) then 0 else 1), vi.1)

/-! ### Basic string and list facts shared by the proofs -/

lemma data_append (a b : String) : (a ++ b).data = a.data ++ b.data := rfl

lemma data_eq_nil_iff (s : String) : s.data = [] ↔ s = "" := by
  constructor
  · intro h
    exact String.toList_inj.mp h
  · intro h
    rw [h]

lemma stripLeading_append : ∀ p r : List Char, stripLeading p (p ++ r) = some r := by
  intro p
  induction p with
  | nil => intro r; rfl
  | cons c cs ih => intro r; simp [stripLeading, ih]

lemma splitAtFirstHyphen_append : ∀ (f s : List Char), '-' ∉ f →
    splitAtFirstHyphen (f ++ '-' :: s) = some (f, s) := by
  intro f
  induction f with
  | nil => intro s _; simp [splitAtFirstHyphen]
  | cons c cs ih =>
    intro s h
    have hc : ¬ c = '-' := fun he => h (he ▸ List.mem_cons_self c cs)
    have hcs : '-' ∉ cs := fun hm => h (List.mem_cons_of_mem _ hm)
    simp [splitAtFirstHyphen, hc, ih s hcs]

/-! ### C2: tag-codec round trip -/

/-- C2 counterexample: the claim quantifies over every hyphen-free
`force_bounce` token, but the empty token fails: `[^-]+` needs at least one
character, so `paasta-b--s` does not decode at all (the source's `re.match`
returns `None`), instead of decoding to `(state, force_bounce) = ("s", "")`. -/
theorem claim2_counterexample :
    decode_state_tag "b" (encode_state_tag "b" "" "s") = none ∧
    decode_state_tag "b" (encode_state_tag "b" "" "s") ≠ some ("s", "") := by
  constructor
  · decide
  · decide

/-- C2 (amended): for every branch, every *nonempty* hyphen-free force_bounce
token and every state string, decoding the encoded tag
`paasta-<b>-<f>-<s>` against branch `b` yields exactly `(s, f)`. -/
theorem claim2_round_trip_amended (branch force_bounce state : String)
    (hne : force_bounce ≠ "") (hnh : '-' ∉ force_bounce.data) :
    decode_state_tag branch (encode_state_tag branch force_bounce state)
      = some (state, force_bounce) := by
  have hfb : ¬ force_bounce.data = [] := fun h => hne ((data_eq_nil_iff _).mp h)
  have hdata : (encode_state_tag branch force_bounce state).data
      = ("refs/tags/paasta-" ++ branch ++ "-").data
        ++ (force_bounce.data ++ '-' :: state.data) := by
    simp [encode_state_tag, data_append, List.append_assoc]
  unfold decode_state_tag
  rw [hdata, stripLeading_append]
  simp only [splitAtFirstHyphen_append _ _ hnh]
  simp [hfb]

/-- C2 witness: the amended round trip at the concrete triple
`("clusterB.main", "123", "stop")` from the repository's own test data. -/
theorem claim2_witness :
    (("123" : String) ≠ "" ∧ '-' ∉ ("123" : String).data) ∧
    decode_state_tag "clusterB.main" (encode_state_tag "clusterB.main" "123" "stop")
      = some ("stop", "123") :=
  ⟨⟨by decide, by decide⟩,
    claim2_round_trip_amended "clusterB.main" "123" "stop" (by decide) (by decide)⟩

/-! ### C3: manifest save/load round trip -/

/-- C3: saving wraps the mappings as `{'v1': mappings}` and loading that
document returns the same mappings. -/
theorem claim3_manifest_round_trip (m : List (String × DeployGroupMapping)) :
    get_deploy_group_mappings_from_deployments_dict
        (get_deployments_dict_from_deploy_group_mappings m)
      = DeploymentsValue.vmappings m := rfl

/-! ### C4: legacy manifest upgrade -/

lemma mem_legacy_upgrade {d : List (String × DeploymentsValue)} {k s : String}
    (h : (k, DeploymentsValue.vstr s) ∈ d) :
    (k, DeployGroupMapping.mk s "start" none) ∈ legacy_upgrade d := by
  induction d with
  | nil => cases h
  | cons hd tl ih =>
    rcases List.mem_cons.mp h with heq | hmem
    · rw [← heq]
      exact List.mem_cons_self _ _
    · obtain ⟨k1, v1⟩ := hd
      cases v1 with
      | vmappings m1 => exact ih hmem
      | vstr s1 => exact List.mem_cons_of_mem _ (ih hmem)
      | vother => exact ih hmem

/-- C4: a deployments document lacking the `v1` key is read as the legacy
flat shape, and every top-level entry holding a plain string becomes
`{docker_image: <string>, desired_state: 'start', force_bounce: None}`. -/
theorem claim4_legacy_upgrade (d : List (String × DeploymentsValue))
    (h : alookup "v1" d = none) :
    get_deploy_group_mappings_from_deployments_dict d
        = DeploymentsValue.vmappings (legacy_upgrade d) ∧
      ∀ k s, (k, DeploymentsValue.vstr s) ∈ d →
        (k, DeployGroupMapping.mk s "start" none) ∈ legacy_upgrade d := by
  constructor
  · unfold get_deploy_group_mappings_from_deployments_dict
    rw [h]
  · intro k s hks
    exact mem_legacy_upgrade hks

/-- C4 witness: a one-entry legacy document (no `v1` key) upgrades its plain
docker-image string into a full `start` mapping with no force_bounce. -/
theorem claim4_witness :
    alookup "v1" [("main", DeploymentsValue.vstr "services-foo:paasta-abc")] = none ∧
    get_deploy_group_mappings_from_deployments_dict
        [("main", DeploymentsValue.vstr "services-foo:paasta-abc")]
      = DeploymentsValue.vmappings
          [("main", DeployGroupMapping.mk "services-foo:paasta-abc" "start" none)] ∧
    ("main", DeployGroupMapping.mk "services-foo:paasta-abc" "start" none)
      ∈ legacy_upgrade [("main", DeploymentsValue.vstr "services-foo:paasta-abc")] := by
  have h := claim4_legacy_upgrade
    [("main", DeploymentsValue.vstr "services-foo:paasta-abc")] (by decide)
  exact ⟨by decide, h.1.trans (by decide), h.2 "main" "services-foo:paasta-abc" (by decide)⟩

/-! ### C7: robustness of the prior-manifest load -/

/-- C7: loading the prior manifest from a missing file or from a file whose
contents are not valid JSON yields the empty mapping; `load_old_mappings` is a
total function, so no exception reaches the resolution pass. -/
theorem claim7_load_robustness :
    load_old_mappings FileReadOutcome.missingFile = DeploymentsValue.vmappings [] ∧
    load_old_mappings FileReadOutcome.invalidJson = DeploymentsValue.vmappings [] :=
  ⟨rfl, rfl⟩

/-! ### C9: the resolver ignores `old_mappings` -/

/-- C9: `get_deploy_group_mappings` is independent of its `old_mappings`
argument (and of `soa_dir`): the prior manifest is never merged into or used
as a fallback for the newly computed mappings. -/
theorem claim9_old_mappings_independence {α β γ : Type} (soa_dir : α)
    (service : String) (old1 : β) (old2 : γ)
    (deploy_group_branch_mappings remote_refs : List (String × String)) :
    get_deploy_group_mappings soa_dir service old1
        deploy_group_branch_mappings remote_refs
      = get_deploy_group_mappings soa_dir service old2
        deploy_group_branch_mappings remote_refs := rfl

/-! ### C1: desired-state resolution machinery -/

lemma charsLe_iff_not_lex : ∀ as bs : List Char,
    charsLe as bs = true ↔ ¬ List.Lex (· < ·) bs as := by
  intro as
  induction as with
  | nil =>
    intro bs
    constructor
    · intro _ h
      cases h
    · intro _
      rfl
  | cons a as ih =>
    intro bs
    cases bs with
    | nil =>
      constructor
      · intro h
        cases h
      · intro h
        exact absurd List.Lex.nil h
    | cons b bs =>
      show (if a < b then true else if b < a then false else charsLe as bs) = true
        ↔ ¬ List.Lex (· < ·) (b :: bs) (a :: as)
      rcases lt_trichotomy a b with hab | heq | hba
      · rw [if_pos hab]
        constructor
        · intro _ h
          cases h with
          | rel h1 => exact absurd hab (asymm h1)
          | cons h1 => exact lt_irrefl a hab
        · intro _
          rfl
      · subst heq
        rw [if_neg (lt_irrefl a), if_neg (lt_irrefl a), ih bs]
        constructor
        · intro h hl
          cases hl with
          | rel h1 => exact lt_irrefl a h1
          | cons h1 => exact h h1
        · intro h hl
          exact h (List.Lex.cons hl)
      · rw [if_neg (asymm hba), if_pos hba]
        constructor
        · intro h
          cases h
        · intro h
          exact absurd (List.Lex.rel hba) h
lemma charsLe_iff_le (a b : String) : charsLe a.data b.data = true ↔ a ≤ b := by
  rw [charsLe_iff_not_lex, String.le_iff_toList_le, ← not_lt]
  exact Iff.rfl

lemma stateKeyLe_total : ∀ a b : String × String, stateKeyLe a b ∨ stateKeyLe b a := by
  intro a b
  unfold stateKeyLe
  rw [charsLe_iff_le, charsLe_iff_le]
  exact le_total _ _

lemma stateKeyLe_trans : ∀ a b c : String × String,
    stateKeyLe a b → stateKeyLe b c → stateKeyLe a c := by
  intro a b c hab hbc
  unfold stateKeyLe at *
  rw [charsLe_iff_le] at *
  exact le_trans hab hbc

lemma sorted_getLast_max : ∀ {l : List (String × String)}
    (_ : List.Sorted stateKeyLe l) (hne : l ≠ []),
    ∀ x ∈ l, stateKeyLe x (l.getLast hne) := by
  intro l
  induction l with
  | nil => intro _ hne; exact absurd rfl hne
  | cons a t ih =>
    intro hs hne x hx
    cases t with
    | nil =>
      have hxa : x = a := by simpa using hx
      subst hxa
      show stateKeyLe x ((x :: []).getLast hne)
      have : (x :: ([] : List (String × String))).getLast hne = x := rfl
      rw [this]
      unfold stateKeyLe
      rw [charsLe_iff_le]
    | cons b t1 =>
      have htne : b :: t1 ≠ ([] : List (String × String)) := by simp
      have hlast : (a :: b :: t1).getLast hne = (b :: t1).getLast htne :=
        List.getLast_cons htne
      rw [hlast]
      rcases List.mem_cons.mp hx with hxa | hxmem
      · subst hxa
        exact List.rel_of_sorted_cons hs _ (List.getLast_mem htne)
      · exact ih hs.of_cons htne x hxmem

/-- Rewrites `get_desired_state` with a known head-ref lookup into the
sorted-last shape of the source's `if states: sorted_states[-1] else` body. -/
lemma get_desired_state_eq {service branch deploy_group head_sha : String}
    {remote_refs : List (String × String)}
    (h : alookup ("refs/heads/" ++ deploy_group) remote_refs = some head_sha) :
    get_desired_state service branch remote_refs deploy_group =
      match (List.insertionSort stateKeyLe
          (collect_states service branch remote_refs head_sha)).getLast? with
      | some p => some (p.1, some p.2)
      | none => some ("start", none) := by
  unfold get_desired_state
  rw [h]

/-- C1: with the deploy group's head ref present in the snapshot,
`get_desired_state` returns `('start', None)` when no `(state, force_bounce)`
pair is collected from the refs pointing at the head commit, and otherwise
returns one of the collected pairs whose `force_bounce` token is
lexicographically greatest (pure string comparison). -/
theorem claim1_desired_state_resolution
    (service branch deploy_group head_sha : String)
    (remote_refs : List (String × String))
    (h : alookup ("refs/heads/" ++ deploy_group) remote_refs = some head_sha) :
    (collect_states service branch remote_refs head_sha = [] →
        get_desired_state service branch remote_refs deploy_group
          = some ("start", none)) ∧
    (collect_states service branch remote_refs head_sha ≠ [] →
        ∃ p ∈ collect_states service branch remote_refs head_sha,
          get_desired_state service branch remote_refs deploy_group
              = some (p.1, some p.2) ∧
            ∀ q ∈ collect_states service branch remote_refs head_sha,
              q.2 ≤ p.2) := by
  constructor
  · intro hempty
    rw [get_desired_state_eq h, hempty]
    rfl
  · intro hne
    have hperm := List.perm_insertionSort stateKeyLe
      (collect_states service branch remote_refs head_sha)
    have hsne : List.insertionSort stateKeyLe
        (collect_states service branch remote_refs head_sha) ≠ [] := by
      intro h0
      rw [h0] at hperm
      exact hne (List.Perm.eq_nil hperm.symm)
    have hsorted := @List.sorted_insertionSort _ stateKeyLe _
      ⟨stateKeyLe_total⟩ ⟨stateKeyLe_trans⟩
      (collect_states service branch remote_refs head_sha)
    have hpl := List.getLast?_eq_getLast _ hsne
    refine ⟨(List.insertionSort stateKeyLe
      (collect_states service branch remote_refs head_sha)).getLast hsne, ?_, ?_, ?_⟩
    · exact hperm.mem_iff.mp (List.getLast_mem hsne)
    · rw [get_desired_state_eq h, hpl]
    · intro q hq
      have hk := sorted_getLast_max hsorted hsne q (hperm.mem_iff.mpr hq)
      exact (charsLe_iff_le _ _).mp hk

/-- C1 witness: on a snapshot where the head commit of `refs/heads/dg` carries
two state tags with force_bounce tokens `5` and `42`, the resolver selects the
pair carrying `5` (pure string comparison: `42 < 5` lexicographically). -/
theorem claim1_witness :
    alookup "refs/heads/dg"
        [("refs/heads/dg", "C"), ("refs/tags/paasta-br-5-stop", "C"),
         ("refs/tags/paasta-br-42-start", "C")] = some "C" ∧
    get_desired_state "svc" "br"
        [("refs/heads/dg", "C"), ("refs/tags/paasta-br-5-stop", "C"),
         ("refs/tags/paasta-br-42-start", "C")] "dg" = some ("stop", some "5") ∧
    (∃ p ∈ collect_states "svc" "br"
        [("refs/heads/dg", "C"), ("refs/tags/paasta-br-5-stop", "C"),
         ("refs/tags/paasta-br-42-start", "C")] "C",
      get_desired_state "svc" "br"
          [("refs/heads/dg", "C"), ("refs/tags/paasta-br-5-stop", "C"),
           ("refs/tags/paasta-br-42-start", "C")] "dg" = some (p.1, some p.2) ∧
        ∀ q ∈ collect_states "svc" "br"
            [("refs/heads/dg", "C"), ("refs/tags/paasta-br-5-stop", "C"),
             ("refs/tags/paasta-br-42-start", "C")] "C",
          q.2 ≤ p.2) :=
  ⟨by decide, by decide,
    (claim1_desired_state_resolution "svc" "br" "dg" "C"
        [("refs/heads/dg", "C"), ("refs/tags/paasta-br-5-stop", "C"),
         ("refs/tags/paasta-br-42-start", "C")] (by decide)).2 (by decide)⟩

/-! ### C5 and C10: image-name regex search -/

lemma headMatches_append : ∀ p r : List Char, headMatches p (p ++ r) = true := by
  intro p
  induction p with
  | nil => intro r; rfl
  | cons c cs ih => intro r; simp [headMatches, ih]

lemma headMatches_false_of_ne (p c : Char) (ps cs : List Char) (h : p ≠ c) :
    headMatches (p :: ps) (c :: cs) = false := by
  unfold headMatches
  rw [beq_eq_false_iff_ne.mpr h, Bool.false_and]

lemma searchLastService_none_of_no_slash : ∀ l : List Char, '/' ∉ l →
    searchLastService l = none := by
  intro l
  induction l with
  | nil => intro _; rfl
  | cons c cs ih =>
    intro h
    have hc : '/' ≠ c := fun he => h (he ▸ List.mem_cons_self c cs)
    have hcs : '/' ∉ cs := fun hm => h (List.mem_cons_of_mem _ hm)
    unfold searchLastService
    rw [ih hcs]
    rw [show ("/services-".data) = '/' :: "services-".data from rfl]
    rw [headMatches_false_of_ne _ _ _ _ hc]
    rfl

lemma takeUntilPaasta_exact : ∀ (svc rest : List Char), ':' ∉ svc →
    takeUntilPaasta (svc ++ (":paasta-".data ++ rest)) = some svc := by
  intro svc
  induction svc with
  | nil =>
    intro rest _
    show takeUntilPaasta (":paasta-".data ++ rest) = some []
    rw [show (":paasta-".data ++ rest) = ':' :: ("paasta-".data ++ rest) from rfl]
    unfold takeUntilPaasta
    rw [show (':' :: ("paasta-".data ++ rest)) = ":paasta-".data ++ rest from rfl,
      headMatches_append]
    rfl
  | cons c cs ih =>
    intro rest h
    have hc : ':' ≠ c := fun he => h (he ▸ List.mem_cons_self c cs)
    have hcs : ':' ∉ cs := fun hm => h (List.mem_cons_of_mem _ hm)
    show takeUntilPaasta (c :: (cs ++ (":paasta-".data ++ rest))) = some (c :: cs)
    have hm : headMatches (":paasta-".data) (c :: (cs ++ (":paasta-".data ++ rest)))
        = false := by
      rw [show (":paasta-".data) = ':' :: "paasta-".data from rfl]
      exact headMatches_false_of_ne _ _ _ _ hc
    unfold takeUntilPaasta
    rw [hm, if_neg Bool.false_ne_true, ih rest hcs]
    rfl

lemma searchLastService_exact : ∀ (reg svc sha : List Char),
    '/' ∉ svc → ':' ∉ svc → '/' ∉ sha →
    searchLastService
        (reg ++ '/' :: ("services-".data ++ (svc ++ (":paasta-".data ++ sha))))
      = some svc := by
  intro reg
  induction reg with
  | nil =>
    intro svc sha h1 h2 h3
    show searchLastService
        ('/' :: ("services-".data ++ (svc ++ (":paasta-".data ++ sha)))) = some svc
    have hnos : '/' ∉ ("services-".data ++ (svc ++ (":paasta-".data ++ sha))) := by
      intro hm
      rcases List.mem_append.mp hm with hm1 | hm2
      · revert hm1; decide
      rcases List.mem_append.mp hm2 with hm3 | hm4
      · exact h1 hm3
      rcases List.mem_append.mp hm4 with hm5 | hm6
      · revert hm5; decide
      · exact h3 hm6
    unfold searchLastService
    rw [searchLastService_none_of_no_slash _ hnos]
    rw [show ('/' :: ("services-".data ++ (svc ++ (":paasta-".data ++ sha))))
        = "/services-".data ++ (svc ++ (":paasta-".data ++ sha)) from rfl,
      headMatches_append]
    show takeUntilPaasta
        (List.drop 10 ("/services-".data ++ (svc ++ (":paasta-".data ++ sha))))
      = some svc
    rw [show (10 : Nat) = ("/services-".data).length from rfl, List.drop_left]
    exact takeUntilPaasta_exact svc sha h2
  | cons c reg1 ih =>
    intro svc sha h1 h2 h3
    show searchLastService
        (c :: (reg1 ++ '/' :: ("services-".data ++ (svc ++ (":paasta-".data ++ sha)))))
      = some svc
    unfold searchLastService
    rw [ih svc sha h1 h2 h3]

/-- C5 counterexample: for the service name `a:paasta-b` (which contains no
`/`, so the claim covers it) and sha `c`, the lazy group of the regex stops at
the *first* `:paasta-`, so the function returns `a`, not the service name. -/
theorem claim5_counterexample :
    ('/' ∉ ("a:paasta-b" : String).data) ∧
    get_service_from_docker_image ("registry/" ++ build_docker_image_name "a:paasta-b" "c")
      = some "a" ∧
    get_service_from_docker_image ("registry/" ++ build_docker_image_name "a:paasta-b" "c")
      ≠ some "a:paasta-b" := ⟨by decide, by decide, by decide⟩

/-- C5 (amended): for every registry, every service name containing neither
`/` nor `:`, and every sha containing no `/`, `get_service_from_docker_image`
applied to `<registry>/` ++ `build_docker_image_name service sha` returns the
service name — the inverse of the image-name builder on such names. -/
theorem claim5_image_inverse_amended (registry service sha : String)
    (h1 : '/' ∉ service.data) (h2 : ':' ∉ service.data) (h3 : '/' ∉ sha.data) :
    get_service_from_docker_image (registry ++ "/" ++ build_docker_image_name service sha)
      = some service := by
  have hdata : (registry ++ "/" ++ build_docker_image_name service sha).data
      = registry.data
        ++ '/' :: ("services-".data ++ (service.data ++ (":paasta-".data ++ sha.data))) := by
    simp [build_docker_image_name, data_append, List.append_assoc]
  unfold get_service_from_docker_image
  rw [hdata, searchLastService_exact registry.data service.data sha.data h1 h2 h3]
  rfl

/-- C5 witness: the amended inverse property at the spec's own example,
registry `registry`, service `foo`, sha `abc123`. -/
theorem claim5_witness :
    ('/' ∉ ("foo" : String).data ∧ ':' ∉ ("foo" : String).data ∧
      '/' ∉ ("abc123" : String).data) ∧
    get_service_from_docker_image ("registry" ++ "/" ++ build_docker_image_name "foo" "abc123")
      = some "foo" :=
  ⟨⟨by decide, by decide, by decide⟩,
    claim5_image_inverse_amended "registry" "foo" "abc123" (by decide) (by decide) (by decide)⟩

/-- C10: on an image name containing no `/` — in particular on every direct,
registry-free output of `build_docker_image_name` for `/`-free service and sha
— the regex search finds no match and the function fails (`none` models the
`AttributeError` from `matches.group(1)` on a `None` match object). -/
theorem claim10_registry_free_no_match :
    (∀ image_name : String, '/' ∉ image_name.data →
        get_service_from_docker_image image_name = none) ∧
    (∀ service sha : String, '/' ∉ service.data → '/' ∉ sha.data →
        get_service_from_docker_image (build_docker_image_name service sha) = none) := by
  have hbase : ∀ image_name : String, '/' ∉ image_name.data →
      get_service_from_docker_image image_name = none := by
    intro image_name h
    unfold get_service_from_docker_image
    rw [searchLastService_none_of_no_slash _ h]
    rfl
  refine ⟨hbase, ?_⟩
  intro service sha hs hh
  apply hbase
  have h1 : '/' ∉ ("services-" : String).data := by decide
  have h2 : '/' ∉ (":paasta-" : String).data := by decide
  simp [build_docker_image_name, data_append, List.mem_append, hs, hh, h1, h2]

/-- C10 witness: the registry-free image `services-foo:paasta-abc`, which is
exactly `build_docker_image_name "foo" "abc"`, yields no service name. -/
theorem claim10_witness :
    ('/' ∉ ("services-foo:paasta-abc" : String).data) ∧
    get_service_from_docker_image "services-foo:paasta-abc" = none ∧
    get_service_from_docker_image (build_docker_image_name "foo" "abc") = none :=
  ⟨by decide,
    claim10_registry_free_no_match.1 "services-foo:paasta-abc" (by decide),
    claim10_registry_free_no_match.2 "foo" "abc" (by decide) (by decide)⟩

/-! ### C8: pairs with a missing deploy-group ref are silently skipped -/

lemma alookup_setEntry (m : List (String × DeployGroupMapping)) (k q : String)
    (v : DeployGroupMapping) :
    alookup q (setEntry m k v) = if q = k then some v else alookup q m := by
  induction m with
  | nil =>
    by_cases hq : q = k
    · subst hq; simp [setEntry, alookup]
    · have hkq : ¬ k = q := fun h => hq h.symm
      simp [setEntry, alookup, hq, hkq]
  | cons hd tl ih =>
    obtain ⟨k1, v1⟩ := hd
    by_cases h1 : k1 = k
    · subst h1
      by_cases hq : q = k1
      · subst hq; simp [setEntry, alookup]
      · have hkq : ¬ k1 = q := fun h => hq h.symm
        simp [setEntry, alookup, hq, hkq]
    · by_cases h1q : k1 = q
      · subst h1q
        simp [setEntry, alookup, h1]
      · simp [setEntry, alookup, h1, h1q, ih]

lemma str_colon_inj {service dg dg1 : String}
    (h : service ++ ":" ++ dg = service ++ ":" ++ dg1) : dg = dg1 := by
  have h1 : (service ++ ":").data ++ dg.data = (service ++ ":").data ++ dg1.data := by
    have := congrArg String.data h
    rwa [data_append, data_append] at this
  exact String.toList_inj.mp (List.append_cancel_left h1)

lemma get_desired_state_isSome {service branch deploy_group head_sha : String}
    {remote_refs : List (String × String)}
    (h : alookup ("refs/heads/" ++ deploy_group) remote_refs = some head_sha) :
    ∃ ds, get_desired_state service branch remote_refs deploy_group = some ds := by
  rw [get_desired_state_eq h]
  cases (List.insertionSort stateKeyLe
      (collect_states service branch remote_refs head_sha)).getLast? with
  | none => exact ⟨_, rfl⟩
  | some p => exact ⟨_, rfl⟩

lemma foldl_resolve_none (service dg : String) (remote_refs : List (String × String))
    (hdg : alookup ("refs/heads/" ++ dg) remote_refs = none) :
    ∀ (l : List (String × String)) (acc : List (String × DeployGroupMapping)),
      alookup (service ++ ":" ++ dg) acc = none →
      alookup (service ++ ":" ++ dg) (l.foldl (resolve_step service remote_refs) acc)
        = none := by
  intro l
  induction l with
  | nil => intro acc h; exact h
  | cons p l ih =>
    intro acc hacc
    rw [List.foldl_cons]
    apply ih
    unfold resolve_step
    cases hl : alookup ("refs/heads/" ++ p.2) remote_refs with
    | none => exact hacc
    | some sha =>
      cases hds : get_desired_state service p.1 remote_refs p.2 with
      | none => exact hacc
      | some ds =>
        rw [alookup_setEntry]
        rw [if_neg ?_]
        · exact hacc
        · intro he
          have : dg = p.2 := str_colon_inj he
          rw [← this] at hl
          rw [hdg] at hl
          cases hl

lemma foldl_resolve_isSome_mono (service : String)
    (remote_refs : List (String × String)) :
    ∀ (l : List (String × String)) (acc : List (String × DeployGroupMapping))
      (k : String), (alookup k acc).isSome →
      (alookup k (l.foldl (resolve_step service remote_refs) acc)).isSome := by
  intro l
  induction l with
  | nil => intro acc k h; exact h
  | cons p l ih =>
    intro acc k hacc
    rw [List.foldl_cons]
    apply ih
    unfold resolve_step
    cases alookup ("refs/heads/" ++ p.2) remote_refs with
    | none => exact hacc
    | some sha =>
      cases get_desired_state service p.1 remote_refs p.2 with
      | none => exact hacc
      | some ds =>
        rw [alookup_setEntry]
        by_cases hk : k = service ++ ":" ++ p.2
        · rw [if_pos hk]; rfl
        · rw [if_neg hk]; exact hacc

lemma foldl_resolve_present (service cb dg sha : String)
    (remote_refs : List (String × String))
    (hdg : alookup ("refs/heads/" ++ dg) remote_refs = some sha) :
    ∀ (l : List (String × String)) (acc : List (String × DeployGroupMapping)),
      (cb, dg) ∈ l →
      (alookup (service ++ ":" ++ dg) (l.foldl (resolve_step service remote_refs) acc)).isSome := by
  intro l
  induction l with
  | nil => intro acc hmem; exact absurd hmem (List.not_mem_nil _)
  | cons p l ih =>
    intro acc hmem
    rw [List.foldl_cons]
    rcases List.mem_cons.mp hmem with heq | hmem1
    · apply foldl_resolve_isSome_mono
      rw [← heq]
      show (alookup (service ++ ":" ++ dg)
        (resolve_step service remote_refs acc (cb, dg))).isSome
      unfold resolve_step
      rw [hdg]
      obtain ⟨ds, hds⟩ := @get_desired_state_isSome service cb dg sha remote_refs hdg
      rw [hds, alookup_setEntry, if_pos rfl]
      rfl
    · exact ih _ hmem1

/-- C8: in a resolution pass, a `(branch, deploy_group)` pair whose ref
`refs/heads/<deploy_group>` is absent from the snapshot contributes no entry
under `service:deploy_group` (and the total function raises no error), while
every pair whose ref is present still gets an entry. -/
theorem claim8_missing_ref_skipped {α β : Type} (soa_dir : α) (old_mappings : β)
    (service : String)
    (deploy_group_branch_mappings remote_refs : List (String × String)) :
    (∀ cb dg, (cb, dg) ∈ deploy_group_branch_mappings →
        alookup ("refs/heads/" ++ dg) remote_refs = none →
        alookup (service ++ ":" ++ dg)
          (get_deploy_group_mappings soa_dir service old_mappings
            deploy_group_branch_mappings remote_refs) = none) ∧
    (∀ cb dg, (cb, dg) ∈ deploy_group_branch_mappings →
        (alookup ("refs/heads/" ++ dg) remote_refs).isSome →
        (alookup (service ++ ":" ++ dg)
          (get_deploy_group_mappings soa_dir service old_mappings
            deploy_group_branch_mappings remote_refs)).isSome) := by
  constructor
  · intro cb dg hmem hnone
    have hne : ¬ deploy_group_branch_mappings.isEmpty = true := by
      cases deploy_group_branch_mappings with
      | nil => cases hmem
      | cons p l => simp [List.isEmpty]
    unfold get_deploy_group_mappings
    rw [if_neg hne]
    exact foldl_resolve_none service dg remote_refs hnone
      deploy_group_branch_mappings [] rfl
  · intro cb dg hmem hsome
    obtain ⟨sha, hsha⟩ := Option.isSome_iff_exists.mp hsome
    have hne : ¬ deploy_group_branch_mappings.isEmpty = true := by
      cases deploy_group_branch_mappings with
      | nil => cases hmem
      | cons p l => simp [List.isEmpty]
    unfold get_deploy_group_mappings
    rw [if_neg hne]
    exact foldl_resolve_present service cb dg sha remote_refs hsha
      deploy_group_branch_mappings [] hmem

/-- C8 witness: with pairs for deploy groups `present` (ref in the snapshot)
and `absent` (ref not in the snapshot), the result has an entry for the former
and none for the latter. -/
theorem claim8_witness :
    (("b2", "absent") ∈ [("b1", "present"), ("b2", "absent")] ∧
      alookup "refs/heads/absent" [("refs/heads/present", "S")] = none ∧
      alookup ("svc" ++ ":" ++ "absent")
        (get_deploy_group_mappings () "svc" () [("b1", "present"), ("b2", "absent")]
          [("refs/heads/present", "S")]) = none) ∧
    (("b1", "present") ∈ [("b1", "present"), ("b2", "absent")] ∧
      (alookup "refs/heads/present" [("refs/heads/present", "S")]).isSome ∧
      (alookup ("svc" ++ ":" ++ "present")
        (get_deploy_group_mappings () "svc" () [("b1", "present"), ("b2", "absent")]
          [("refs/heads/present", "S")])).isSome) :=
  ⟨⟨by decide, by decide,
      (claim8_missing_ref_skipped () () "svc" [("b1", "present"), ("b2", "absent")]
        [("refs/heads/present", "S")]).1 "b2" "absent" (by decide) (by decide)⟩,
    ⟨by decide, by decide,
      (claim8_missing_ref_skipped () () "svc" [("b1", "present"), ("b2", "absent")]
        [("refs/heads/present", "S")]).2 "b1" "present" (by decide) (by decide)⟩⟩

/-! ### C6: rollback issues one mutation per valid instance -/

/-- C6: an unknown cluster or any invalid requested instance yields exit code
`1` with zero `mark_for_deployment` calls; otherwise exactly one call is
issued per valid instance (the call list equals the valid set, which holds
each instance once) and the exit code is `0` exactly when every call
succeeds. -/
theorem claim6_rollback_behavior (cluster : String)
    (given_instances known_clusters service_instances : List String)
    (mark_ret : String → Nat) :
    ((cluster ∉ known_clusters ∨
        (validate_given_instances service_instances given_instances).2 ≠ []) →
      paasta_rollback cluster given_instances known_clusters service_instances mark_ret
        = (1, [])) ∧
    (cluster ∈ known_clusters →
      (validate_given_instances service_instances given_instances).2 = [] →
      (paasta_rollback cluster given_instances known_clusters service_instances mark_ret).2
          = (validate_given_instances service_instances given_instances).1 ∧
        (validate_given_instances service_instances given_instances).1.Nodup ∧
        ((paasta_rollback cluster given_instances known_clusters service_instances
            mark_ret).1 = 0 ↔
          ∀ i ∈ (validate_given_instances service_instances given_instances).1,
            mark_ret i = 0)) := by
  constructor
  · intro h
    rcases h with h | h
    · unfold paasta_rollback
      rw [if_pos h]
    · by_cases hc : cluster ∉ known_clusters
      · unfold paasta_rollback
        rw [if_pos hc]
      · unfold paasta_rollback
        rw [if_neg hc]
        have hie : ¬ (validate_given_instances service_instances given_instances).2.isEmpty
            = true := by
          rw [List.isEmpty_iff]
          exact h
        rw [if_pos hie]
  · intro h1 h2
    have hie : (validate_given_instances service_instances given_instances).2.isEmpty
        = true := by
      rw [List.isEmpty_iff]
      exact h2
    unfold paasta_rollback
    rw [if_neg (not_not_intro h1), if_neg (not_not_intro hie)]
    refine ⟨rfl, ?_, ?_⟩
    · unfold validate_given_instances
      by_cases hg : given_instances.isEmpty = true
      · rw [if_pos hg]
        exact List.nodup_dedup _
      · rw [if_neg hg]
        exact List.nodup_dedup _
    · constructor
      · intro h0 i hi
        by_cases hall : ((validate_given_instances service_instances
            given_instances).1.map mark_ret).all (fun r => r == 0) = true
        · have := List.all_eq_true.mp hall (mark_ret i) (List.mem_map_of_mem _ hi)
          exact eq_of_beq this
        · rw [if_neg hall] at h0
          cases h0
      · intro hall
        have : ((validate_given_instances service_instances
            given_instances).1.map mark_ret).all (fun r => r == 0) = true := by
          rw [List.all_eq_true]
          intro r hr
          obtain ⟨i, hi, hri⟩ := List.mem_map.mp hr
          rw [← hri]
          exact beq_iff_eq.mpr (hall i hi)
        rw [if_pos this]

/-- C6 witness: rollback on a known cluster with one valid instance and an
always-succeeding mutation issues exactly that one call and exits `0`. -/
theorem claim6_witness :
    (("c1" : String) ∈ ["c1", "c2"] ∧
      (validate_given_instances ["i1", "i2"] ["i1"]).2 = []) ∧
    (paasta_rollback "c1" ["i1"] ["c1", "c2"] ["i1", "i2"] (fun _ => 0)).2
        = (validate_given_instances ["i1", "i2"] ["i1"]).1 ∧
      (validate_given_instances ["i1", "i2"] ["i1"]).1.Nodup ∧
      ((paasta_rollback "c1" ["i1"] ["c1", "c2"] ["i1", "i2"] (fun _ => 0)).1 = 0 ↔
        ∀ i ∈ (validate_given_instances ["i1", "i2"] ["i1"]).1, (fun _ => 0 : String → Nat) i = 0) :=
  ⟨⟨by decide, by decide⟩,
    (claim6_rollback_behavior "c1" ["i1"] ["c1", "c2"] ["i1", "i2"] (fun _ => 0)).2
      (by decide) (by decide)⟩

end Paasta
